import Mathlib

/-!
Shallow embedding of `components/salsa-2022/src/interned.rs` (the interning
ingredient of the salsa incremental-computation engine), together with proofs
of the specified properties.

The Rust source is concurrent; we embed its sequential semantics: each
operation is a pure function from the table state (and the runtime's read log)
to a new state.  Fatal conditions (`panic!` / failed `assert!`) are embedded as
`none` results: a `none` means the program aborts, so no state is returned.
-/

namespace Salsa

/-- Size of the 32-bit id space (`u32`). -/
def U32_SIZE : Nat := 4294967296

/-- An interned id (`crate::Id`, a 32-bit handle).  We record the raw numeric
value; `crate::id::Id` itself is outside the embedded file. -/
structure Id where
  value : Nat
deriving DecidableEq, Repr

/-- Modelled from the spec: `crate::id::Id::from_u32` is not under `src/`; the
spec treats ids as opaque 32-bit handles, so the conversion just wraps the
counter value.  Exhaustion of the 32-bit range is checked at the allocation
site (see `InternedIngredient.intern`). -/
def Id.from_u32 (v : Nat) : Id := ⟨v⟩

/-- A dependency index naming a whole table (`DependencyIndex::for_table`).
The `key` module is not under `src/`; the spec calls this the table identity. -/
structure DependencyIndex where
  ingredient_index : Nat
deriving DecidableEq, Repr

def DependencyIndex.for_table (i : Nat) : DependencyIndex := ⟨i⟩

/-- Modelled from the spec: the `Durability` type is not under `src/`; the spec
only requires a distinguished maximum durability (`durability=maximum`). -/
inductive Durability where
  | low
  | medium
  | high
deriving DecidableEq, Repr

/-- The constant `Durability::MAX`. -/
def Durability.MAX : Durability := Durability.high

/-- One recorded tracked read (`runtime.report_tracked_read` arguments). -/
structure TrackedRead where
  index : DependencyIndex
  durability : Durability
  changed_at : Nat
deriving DecidableEq, Repr

/-- Modelled from the spec: the `Runtime` is an external collaborator (its file
is not under `src/`); per the spec it is consumed only through
`report_read(tableIdentity, durability, asOf)`, so we embed it as the log of
reads reported to it. -/
structure Runtime where
  reads : List TrackedRead
deriving DecidableEq, Repr

/-- Embeds `Runtime::report_tracked_read`: appends one read to the log. -/
def Runtime.report_tracked_read (rt : Runtime) (idx : DependencyIndex)
    (d : Durability) (changed_at : Nat) : Runtime :=
  ⟨rt.reads ++ [⟨idx, d, changed_at⟩]⟩

/-- First-match association-list lookup: the embedding of a map `get`. -/
def alookup {α β : Type} [DecidableEq α] : List (α × β) → α → Option β
  | [], _ => none
  | (k, b) :: rest, a => if k = a then some b else alookup rest a

/-- The interning table (`InternedIngredient<C>`), with `V` for `C::Data`.
`key_map` is the forward index (value → id), `value_map` the backward index
(id → value), both embedded as association lists; `counter` is the next-id
counter and `reset_at` the revision of the last reset (revisions as `Nat`). -/
structure InternedIngredient (V : Type) where
  ingredient_index : Nat
  key_map : List (V × Id)
  value_map : List (Id × V)
  counter : Nat
  reset_at : Nat
  debug_name : String
deriving DecidableEq, Repr

namespace InternedIngredient

/-- Embeds `InternedIngredient::new`.  Modelled from the spec for the initial
revision: `Revision::start()` is not under `src/`; the spec's scenario starts
with `ResetAt = 0`. -/
def new (V : Type) (ingredient_index : Nat) (debug_name : String) :
    InternedIngredient V :=
  { ingredient_index := ingredient_index
    key_map := []
    value_map := []
    counter := 0
    reset_at := 0
    debug_name := debug_name }

/-- Embeds `InternedIngredient::intern`.  Reports a tracked read, then takes the fast
path (existing id), or re-checks the entry (the occupied arm of the racing
`entry` call; in the sequential embedding the state is unchanged between the
two lookups) and otherwise allocates: `counter.fetch_add(1)`, insert into the
backward index with the `old_value.is_none()` assertion, then publish in the
forward index.  `none` is a fatal abort: either the uniqueness assertion fails
or — modelled from the spec, since `Id::from_u32` is not under `src/` — the
32-bit id space is exhausted, which the spec makes a fatal overflow condition
rather than a silent wrap-around. -/
def intern {V : Type} [DecidableEq V] (t : InternedIngredient V) (rt : Runtime)
    (data : V) : Runtime × Option (InternedIngredient V × Id) :=
  let rt := rt.report_tracked_read (DependencyIndex.for_table t.ingredient_index)
    Durability.MAX t.reset_at
  match alookup t.key_map data with
  | some id => (rt, some (t, id))
  | none =>
    match alookup t.key_map data with
    | some id => (rt, some (t, id))
    | none =>
      if t.counter < U32_SIZE then
        let next_id := Id.from_u32 t.counter
        match alookup t.value_map next_id with
        | some _ => (rt, none)
        | none =>
          (rt, some
            ({ t with
                counter := t.counter + 1
                value_map := (next_id, data) :: t.value_map
                key_map := (data, next_id) :: t.key_map },
              next_id))
      else
        (rt, none)

/-- The table produced by the slow (allocation) path of `intern`. -/
def internAlloc {V : Type} (t : InternedIngredient V) (v : V) :
    InternedIngredient V :=
  { t with
      counter := t.counter + 1
      value_map := (Id.from_u32 t.counter, v) :: t.value_map
      key_map := (v, Id.from_u32 t.counter) :: t.key_map }

/-- Embeds `InternedIngredient::reset`: asserts `revision > self.reset_at` (a failed
assertion aborts before any mutation, hence `none`), then advances `reset_at`
and clears both indices. -/
def reset {V : Type} (t : InternedIngredient V) (revision : Nat) :
    Option (InternedIngredient V) :=
  if t.reset_at < revision then
    some { t with reset_at := revision, key_map := [], value_map := [] }
  else
    none

/-- Embeds `InternedIngredient::data`: reports a tracked read, then looks the id up in
the backward index; an unknown id is a fatal `panic!` (`none`). -/
def data {V : Type} [DecidableEq V] (t : InternedIngredient V) (rt : Runtime)
    (id : Id) : Runtime × Option V :=
  let rt := rt.report_tracked_read (DependencyIndex.for_table t.ingredient_index)
    Durability.MAX t.reset_at
  match alookup t.value_map id with
  | some d => (rt, some d)
  | none => (rt, none)

/-- Embeds `Ingredient::maybe_changed_after` for `InternedIngredient`:
`revision < self.reset_at`. -/
def maybe_changed_after {V : Type} (t : InternedIngredient V)
    (revision : Nat) : Bool :=
  decide (revision < t.reset_at)

/-- Embeds `Ingredient::mark_validated_output`: unconditional `unreachable!`. -/
def mark_validated_output {V : Type} (_t : InternedIngredient V)
    (_executor : Nat) (_output_key : Option Id) : Option Unit :=
  none

/-- Embeds `Ingredient::remove_stale_output`: unconditional `unreachable!`. -/
def remove_stale_output {V : Type} (_t : InternedIngredient V)
    (_executor : Nat) (_stale_output_key : Option Id) : Option Unit :=
  none

/-- Embeds `Ingredient::reset_for_new_revision`: unconditional `panic!`. -/
def reset_for_new_revision {V : Type} (_t : InternedIngredient V) :
    Option (InternedIngredient V) :=
  none

/-- Embeds `Ingredient::salsa_struct_deleted`: unconditional `panic!`. -/
def salsa_struct_deleted {V : Type} (_t : InternedIngredient V) (_id : Id) :
    Option Unit :=
  none

end InternedIngredient

/-- The read that both `intern` and `data` report for table `t`. -/
def tableRead {V : Type} (t : InternedIngredient V) : TrackedRead :=
  ⟨DependencyIndex.for_table t.ingredient_index, Durability.MAX, t.reset_at⟩

/-- Well-formedness of the table: the two indices are mutually inverse, and
every id stored in the backward index is strictly below the counter. -/
structure TableWf {V : Type} [DecidableEq V] (t : InternedIngredient V) : Prop where
  kv : ∀ v id, alookup t.key_map v = some id → alookup t.value_map id = some v
  vk : ∀ id v, alookup t.value_map id = some v → alookup t.key_map v = some id
  fresh : ∀ id v, alookup t.value_map id = some v → id.value < t.counter

/-- One logical operation issued to the table by a caller. -/
inductive Op (V : Type) where
  | intern (v : V)
  | lookup (id : Id)
  | reset (r : Nat)

/-- Run a sequence of operations against the table, abort at the first fatal
one, and collect (in order) the ids returned by the interns that allocated
(that is, whose call advanced the counter). -/
def runOps {V : Type} [DecidableEq V] :
    InternedIngredient V → Runtime → List (Op V) →
    InternedIngredient V × Runtime × List Id
  | t, rt, [] => (t, rt, [])
  | t, rt, Op.intern v :: ops =>
    match t.intern rt v with
    | (rt1, some (t1, id)) =>
      let r := runOps t1 rt1 ops
      if t.counter < t1.counter then (r.1, r.2.1, id :: r.2.2) else r
    | (rt1, none) => (t, rt1, [])
  | t, rt, Op.lookup id :: ops =>
    match t.data rt id with
    | (rt1, some _) => runOps t rt1 ops
    | (rt1, none) => (t, rt1, [])
  | t, rt, Op.reset r :: ops =>
    match t.reset r with
    | some t1 => runOps t1 rt ops
    | none => (t, rt, [])

/-- Embeds `IdentityInterner<C>`, which requires `C::Data: AsId`.  The `AsId` trait is not
under `src/`; we embed an instance of it as the pair of conversion functions
the source calls (`as_id`, `from_id`). -/
structure IdentityInterner (V : Type) where
  as_id : V → Id
  from_id : Id → V

/-- Embeds `IdentityInterner::intern`: returns `id.as_id()`; the runtime parameter is
unused (no tracked read is reported). -/
def IdentityInterner.intern {V : Type} (s : IdentityInterner V) (rt : Runtime)
    (x : V) : Runtime × Id :=
  (rt, s.as_id x)

/-- Embeds `IdentityInterner::data`: returns `Data::from_id(id)`; the runtime
parameter is unused (no tracked read is reported). -/
def IdentityInterner.data {V : Type} (s : IdentityInterner V) (rt : Runtime)
    (id : Id) : Runtime × V :=
  (rt, s.from_id id)

namespace InternedIngredient

theorem alookup_cons {α β : Type} [DecidableEq α] (k : α) (b : β)
    (l : List (α × β)) (a : α) :
    alookup ((k, b) :: l) a = if k = a then some b else alookup l a := rfl

/-- A fresh table is well formed. -/
theorem wf_new (V : Type) [DecidableEq V] (i : Nat) (n : String) :
    TableWf (new V i n) := by
  refine ⟨?_, ?_, ?_⟩ <;> intro a b h <;> simp [new, alookup] at h

/-- In a well-formed table the next counter value is not yet a key of the
backward index. -/
theorem wf_counter_unused {V : Type} [DecidableEq V]
    {t : InternedIngredient V} (hwf : TableWf t) :
    alookup t.value_map (Id.from_u32 t.counter) = none := by
  cases hv : alookup t.value_map (Id.from_u32 t.counter) with
  | none => rfl
  | some w =>
    have := hwf.fresh _ _ hv
    simp [Id.from_u32] at this

/-- Running `intern` on a hit: returns the existing id without touching the table. -/
theorem intern_hit {V : Type} [DecidableEq V] {t : InternedIngredient V}
    {v : V} {id : Id} (rt : Runtime) (h : alookup t.key_map v = some id) :
    t.intern rt v = (⟨rt.reads ++ [tableRead t]⟩, some (t, id)) := by
  simp [intern, h, Runtime.report_tracked_read, tableRead]

/-- Running `intern` on a genuine miss with id space left: allocates the counter as the
new id and publishes it in both indices. -/
theorem intern_miss {V : Type} [DecidableEq V] {t : InternedIngredient V}
    {v : V} (rt : Runtime) (hk : alookup t.key_map v = none)
    (hc : t.counter < U32_SIZE)
    (hv : alookup t.value_map (Id.from_u32 t.counter) = none) :
    t.intern rt v =
      (⟨rt.reads ++ [tableRead t]⟩, some (internAlloc t v, Id.from_u32 t.counter)) := by
  simp [intern, hk, hc, hv, Runtime.report_tracked_read, tableRead, internAlloc]

/-- Running `intern` on a miss with the id space exhausted: fatal. -/
theorem intern_overflow {V : Type} [DecidableEq V] {t : InternedIngredient V}
    {v : V} (rt : Runtime) (hk : alookup t.key_map v = none)
    (hc : ¬ t.counter < U32_SIZE) :
    t.intern rt v = (⟨rt.reads ++ [tableRead t]⟩, none) := by
  simp [intern, hk, hc, Runtime.report_tracked_read, tableRead]

/-- Any successful `intern` is either a hit (table unchanged) or an allocation
at the current counter. -/
theorem intern_cases {V : Type} [DecidableEq V] {t t1 : InternedIngredient V}
    {rt rt1 : Runtime} {v : V} {id : Id}
    (h : t.intern rt v = (rt1, some (t1, id))) :
    (alookup t.key_map v = some id ∧ t1 = t) ∨
    (alookup t.key_map v = none ∧ t.counter < U32_SIZE ∧
      alookup t.value_map (Id.from_u32 t.counter) = none ∧
      id = Id.from_u32 t.counter ∧ t1 = internAlloc t v) := by
  cases hk : alookup t.key_map v with
  | some i =>
    rw [intern_hit rt hk] at h
    cases h
    exact Or.inl ⟨rfl, rfl⟩
  | none =>
    by_cases hc : t.counter < U32_SIZE
    · cases hv : alookup t.value_map (Id.from_u32 t.counter) with
      | some w =>
        simp [intern, hk, hc, hv] at h
      | none =>
        rw [intern_miss rt hk hc hv] at h
        cases h
        exact Or.inr ⟨rfl, hc, rfl, rfl, rfl⟩
    · rw [intern_overflow rt hk hc] at h
      cases h

/-- The operation `intern` preserves well-formedness. -/
theorem intern_wf {V : Type} [DecidableEq V] {t t1 : InternedIngredient V}
    {rt rt1 : Runtime} {v : V} {id : Id}
    (hwf : TableWf t) (h : t.intern rt v = (rt1, some (t1, id))) :
    TableWf t1 := by
  rcases intern_cases h with ⟨hk, rfl⟩ | ⟨hk, hc, hv, rfl, rfl⟩
  · exact hwf
  · constructor
    · intro w j hj
      rw [internAlloc, alookup_cons] at hj
      by_cases hvw : v = w
      · subst hvw
        rw [if_pos rfl] at hj
        cases hj
        simp [internAlloc, alookup_cons]
      · rw [if_neg hvw] at hj
        have hval := hwf.kv _ _ hj
        have hne : Id.from_u32 t.counter ≠ j := by
          intro hij
          rw [← hij] at hval
          rw [hv] at hval
          cases hval
        simp only [internAlloc, alookup_cons]
        rw [if_neg hne]
        exact hval
    · intro j w hj
      rw [internAlloc, alookup_cons] at hj
      by_cases hcj : Id.from_u32 t.counter = j
      · rw [if_pos hcj] at hj
        cases hj
        subst hcj
        simp [internAlloc, alookup_cons]
      · rw [if_neg hcj] at hj
        have hkey := hwf.vk _ _ hj
        have hne : v ≠ w := by
          intro hvw
          rw [← hvw] at hkey
          rw [hk] at hkey
          cases hkey
        simp only [internAlloc, alookup_cons]
        rw [if_neg hne]
        exact hkey
    · intro j w hj
      rw [internAlloc, alookup_cons] at hj
      by_cases hcj : Id.from_u32 t.counter = j
      · subst hcj
        simp [internAlloc, Id.from_u32]
      · rw [if_neg hcj] at hj
        have := hwf.fresh _ _ hj
        simp only [internAlloc]
        omega

/-- Characterization of a successful `reset`. -/
theorem reset_some {V : Type} {t t' : InternedIngredient V} {r : Nat}
    (h : t.reset r = some t') :
    t.reset_at < r ∧
    t' = { t with reset_at := r, key_map := [], value_map := [] } := by
  unfold reset at h
  split at h
  · cases h
    exact ⟨by assumption, rfl⟩
  · cases h

/-- A freshly reset table is well formed. -/
theorem reset_wf {V : Type} [DecidableEq V] {t t' : InternedIngredient V}
    {r : Nat} (h : t.reset r = some t') : TableWf t' := by
  rcases reset_some h with ⟨-, rfl⟩
  refine ⟨?_, ?_, ?_⟩ <;> intro a b hab <;> simp [alookup] at hab

/-- The operation `intern` always returns the runtime with exactly one read appended,
whatever the outcome (hit, miss, or fatal). -/
theorem intern_fst {V : Type} [DecidableEq V] (t : InternedIngredient V)
    (rt : Runtime) (v : V) :
    (t.intern rt v).1 = ⟨rt.reads ++ [tableRead t]⟩ := by
  cases hk : alookup t.key_map v with
  | some i => rw [intern_hit rt hk]
  | none =>
    by_cases hc : t.counter < U32_SIZE
    · cases hv : alookup t.value_map (Id.from_u32 t.counter) with
      | some w => simp [intern, hk, hc, hv, Runtime.report_tracked_read, tableRead]
      | none => rw [intern_miss rt hk hc hv]
    · rw [intern_overflow rt hk hc]

/-- The operation `data` always returns the runtime with exactly one read appended, whatever
the outcome (hit or fatal). -/
theorem data_fst {V : Type} [DecidableEq V] (t : InternedIngredient V)
    (rt : Runtime) (id : Id) :
    (t.data rt id).1 = ⟨rt.reads ++ [tableRead t]⟩ := by
  cases hv : alookup t.value_map id with
  | some w => simp [data, hv, Runtime.report_tracked_read, tableRead]
  | none => simp [data, hv, Runtime.report_tracked_read, tableRead]

/-- Counter behaviour of a successful `intern`: it never decreases, and when
it moves the call was an allocation of exactly the old counter value. -/
theorem intern_counter {V : Type} [DecidableEq V] {t t1 : InternedIngredient V}
    {rt rt1 : Runtime} {v : V} {id : Id}
    (h : t.intern rt v = (rt1, some (t1, id))) :
    t.counter ≤ t1.counter ∧
    (t.counter < t1.counter →
      id = Id.from_u32 t.counter ∧ t1.counter = t.counter + 1) := by
  rcases intern_cases h with ⟨hk, rfl⟩ | ⟨hk, hc, hv, rfl, rfl⟩
  · exact ⟨Nat.le_refl _, fun hlt => absurd hlt (Nat.lt_irrefl _)⟩
  · exact ⟨Nat.le_succ _, fun _ => ⟨rfl, rfl⟩⟩

end InternedIngredient

/-- Over any run, the counter never decreases, and every collected id was
allocated at or above the starting counter and below the final counter. -/
theorem runOps_alloc {V : Type} [DecidableEq V] :
    ∀ (ops : List (Op V)) (t : InternedIngredient V) (rt : Runtime),
      t.counter ≤ (runOps t rt ops).1.counter ∧
      ∀ id ∈ (runOps t rt ops).2.2,
        t.counter ≤ id.value ∧ id.value < (runOps t rt ops).1.counter := by
  intro ops
  induction ops with
  | nil => intro t rt; exact ⟨Nat.le_refl _, fun id h => absurd h (by simp [runOps])⟩
  | cons op ops ih =>
    intro t rt
    cases op with
    | intern v =>
      cases h : t.intern rt v with
      | mk rt1 res =>
        cases res with
        | none => simp [runOps, h]
        | some p =>
          obtain ⟨t1, id⟩ := p
          have hcnt := InternedIngredient.intern_counter h
          by_cases hlt : t.counter < t1.counter
          · have hid := hcnt.2 hlt
            have hidv : id.value = t.counter := by simp [hid.1, Id.from_u32]
            have iht := ih t1 rt1
            constructor
            · simp only [runOps, h, if_pos hlt]
              omega
            · intro j hj
              simp only [runOps, h, if_pos hlt, List.mem_cons] at hj
              rcases hj with rfl | hj
              · constructor
                · omega
                · simp only [runOps, h, if_pos hlt]
                  have h1 := iht.1
                  have h2 := hid.2
                  omega
              · have := iht.2 j hj
                simp only [runOps, h, if_pos hlt]
                omega
          · have hle : t.counter = t1.counter :=
              Nat.le_antisymm hcnt.1 (Nat.not_lt.mp hlt)
            have iht := ih t1 rt1
            constructor
            · simp only [runOps, h, if_neg hlt]
              omega
            · intro j hj
              simp only [runOps, h, if_neg hlt] at hj ⊢
              have := iht.2 j hj
              omega
    | lookup id =>
      cases h : t.data rt id with
      | mk rt1 res =>
        cases res with
        | none => simp [runOps, h]
        | some w =>
          have iht := ih t rt1
          constructor
          · simp only [runOps, h]
            exact iht.1
          · intro j hj
            simp only [runOps, h] at hj ⊢
            exact iht.2 j hj
    | reset r =>
      cases h : t.reset r with
      | none => simp [runOps, h]
      | some t1 =>
        obtain ⟨-, rfl⟩ := InternedIngredient.reset_some h
        have iht := ih { t with reset_at := r, key_map := [], value_map := [] } rt
        constructor
        · simp only [runOps, h]
          exact iht.1
        · intro j hj
          simp only [runOps, h] at hj ⊢
          exact iht.2 j hj

/-- The ids allocated over any run are strictly increasing in allocation
order (hence pairwise distinct): no id is ever handed out twice while the
table is live, resets included. -/
theorem runOps_pairwise {V : Type} [DecidableEq V] :
    ∀ (ops : List (Op V)) (t : InternedIngredient V) (rt : Runtime),
      List.Pairwise (fun a b : Id => a.value < b.value) (runOps t rt ops).2.2 := by
  intro ops
  induction ops with
  | nil => intro t rt; simp [runOps]
  | cons op ops ih =>
    intro t rt
    cases op with
    | intern v =>
      cases h : t.intern rt v with
      | mk rt1 res =>
        cases res with
        | none => simp [runOps, h]
        | some p =>
          obtain ⟨t1, id⟩ := p
          have hcnt := InternedIngredient.intern_counter h
          by_cases hlt : t.counter < t1.counter
          · have hid := hcnt.2 hlt
            simp only [runOps, h, if_pos hlt]
            refine List.Pairwise.cons ?_ (ih t1 rt1)
            intro j hj
            have := (runOps_alloc ops t1 rt1).2 j hj
            have hidv : id.value = t.counter := by simp [hid.1, Id.from_u32]
            have h2 := hid.2
            omega
          · simp only [runOps, h, if_neg hlt]
            exact ih t1 rt1
    | lookup id =>
      cases h : t.data rt id with
      | mk rt1 res =>
        cases res with
        | none => simp [runOps, h]
        | some w => simp only [runOps, h]; exact ih t rt1
    | reset r =>
      cases h : t.reset r with
      | none => simp [runOps, h]
      | some t1 => simp only [runOps, h]; exact ih t1 rt

/-- On a run free of reset operations, the revision gate `reset_at` never
moves, whatever interns and lookups are performed. -/
theorem runOps_no_reset {V : Type} [DecidableEq V] :
    ∀ (ops : List (Op V)) (t : InternedIngredient V) (rt : Runtime),
      (∀ r0, Op.reset r0 ∉ ops) →
      (runOps t rt ops).1.reset_at = t.reset_at := by
  intro ops
  induction ops with
  | nil => intro t rt _; rfl
  | cons op ops ih =>
    intro t rt hno
    have hno' : ∀ r0, Op.reset r0 ∉ ops :=
      fun r0 hmem => hno r0 (List.mem_cons_of_mem _ hmem)
    cases op with
    | intern v =>
      cases h : t.intern rt v with
      | mk rt1 res =>
        cases res with
        | none => simp [runOps, h]
        | some p =>
          obtain ⟨t1, id⟩ := p
          have hra : t1.reset_at = t.reset_at := by
            rcases InternedIngredient.intern_cases h with ⟨hk, rfl⟩ | ⟨hk, hc, hv, rfl, rfl⟩ <;> rfl
          by_cases hlt : t.counter < t1.counter
          · simp only [runOps, h, if_pos hlt]
            rw [ih t1 rt1 hno', hra]
          · simp only [runOps, h, if_neg hlt]
            rw [ih t1 rt1 hno', hra]
    | lookup id =>
      cases h : t.data rt id with
      | mk rt1 res =>
        cases res with
        | none => simp [runOps, h]
        | some w => simp only [runOps, h]; exact ih t rt1 hno'
    | reset r0 =>
      exact absurd (List.mem_cons_self _ _) (hno r0)

open InternedIngredient

/-- C1: Round trip — for every value `v`, looking up (via `data`) the id
returned by a successful `intern` of `v` yields a value equal to `v`, when no
reset happened between the two calls (the lookup runs on the very table state
the intern produced). -/
theorem C1_round_trip {V : Type} [DecidableEq V] {t t1 : InternedIngredient V}
    {rt rt1 : Runtime} {v : V} {id : Id}
    (hwf : TableWf t)
    (h : t.intern rt v = (rt1, some (t1, id))) (rt2 : Runtime) :
    (t1.data rt2 id).2 = some v := by
  rcases intern_cases h with ⟨hk, rfl⟩ | ⟨hk, hc, hv, rfl, rfl⟩
  · have hval := hwf.kv _ _ hk
    simp [data, hval]
  · simp [data, internAlloc, alookup]

/-- C1 witness: interning `7` into a fresh table and looking the id up
returns `7`. -/
theorem C1_round_trip_witness :
    ((internAlloc (new Nat 0 "t") 7).data ⟨[]⟩ (Id.from_u32 0)).2 = some 7 :=
  C1_round_trip (wf_new Nat 0 "t")
    ((by decide) :
      (new Nat 0 "t").intern ⟨[]⟩ 7 =
        (⟨[tableRead (new Nat 0 "t")]⟩,
          some (internAlloc (new Nat 0 "t") 7, Id.from_u32 0)))
    ⟨[]⟩

/-- C3: Idempotence — once `intern v` has returned an id, a repeated
`intern v` takes the fast path: it returns the same id, leaves the table
unchanged, and only reports its tracked read. -/
theorem C3_idempotence {V : Type} [DecidableEq V] {t t1 : InternedIngredient V}
    {rt rt1 : Runtime} {v : V} {id : Id}
    (h : t.intern rt v = (rt1, some (t1, id))) (rt2 : Runtime) :
    t1.intern rt2 v = (⟨rt2.reads ++ [tableRead t1]⟩, some (t1, id)) := by
  rcases intern_cases h with ⟨hk, rfl⟩ | ⟨hk, hc, hv, rfl, rfl⟩
  · exact intern_hit rt2 hk
  · exact intern_hit rt2 (by simp [internAlloc, alookup])

/-- C3 witness: re-interning `7` returns the id `0` again and leaves the
table as it was. -/
theorem C3_idempotence_witness :
    (internAlloc (new Nat 0 "t") 7).intern ⟨[]⟩ 7 =
      (⟨[tableRead (internAlloc (new Nat 0 "t") 7)]⟩,
        some (internAlloc (new Nat 0 "t") 7, Id.from_u32 0)) :=
  C3_idempotence
    ((by decide) :
      (new Nat 0 "t").intern ⟨[]⟩ 7 =
        (⟨[tableRead (new Nat 0 "t")]⟩,
          some (internAlloc (new Nat 0 "t") 7, Id.from_u32 0)))
    ⟨[]⟩

/-- C4: Reset precondition — `reset r` with `r` not strictly greater than the
current `reset_at` fails the assertion, deterministically and before any
mutation (in the embedding, the fatal outcome is `none` and no successor state
exists, so both indices, the counter and `reset_at` are untouched); with
`r > reset_at` it succeeds, clearing both indices and advancing `reset_at`
while keeping everything else. -/
theorem C4_reset_precondition {V : Type} (t : InternedIngredient V) (r : Nat) :
    (r ≤ t.reset_at → t.reset r = none) ∧
    (t.reset_at < r →
      t.reset r = some { t with reset_at := r, key_map := [], value_map := [] }) := by
  constructor
  · intro h
    unfold InternedIngredient.reset
    rw [if_neg (by omega)]
  · intro h
    unfold InternedIngredient.reset
    rw [if_pos h]

/-- C4 witness: on a fresh table (`reset_at = 0`), `reset 0` fails and
`reset 2` succeeds. -/
theorem C4_reset_precondition_witness :
    (new Nat 0 "t").reset 0 = none ∧
    (new Nat 0 "t").reset 2 =
      some { new Nat 0 "t" with reset_at := 2, key_map := [], value_map := [] } :=
  ⟨(C4_reset_precondition (new Nat 0 "t") 0).1 (by decide),
    (C4_reset_precondition (new Nat 0 "t") 2).2 (by decide)⟩

/-- C6: Freshness contract — `maybe_changed_after r` is true exactly when
`reset_at > r`, and the answer is independent of the intern/lookup call
volume: a successful `intern` never moves `reset_at`, and over any run free of
reset operations the answer is unchanged. -/
theorem C6_freshness_contract {V : Type} [DecidableEq V]
    (t : InternedIngredient V) (r : Nat) :
    (t.maybe_changed_after r = true ↔ r < t.reset_at) ∧
    (∀ rt v rt1 t1 id, t.intern rt v = (rt1, some (t1, id)) →
      t1.reset_at = t.reset_at ∧
      t1.maybe_changed_after r = t.maybe_changed_after r) ∧
    (∀ (ops : List (Op V)) (rt : Runtime), (∀ r0, Op.reset r0 ∉ ops) →
      (runOps t rt ops).1.maybe_changed_after r = t.maybe_changed_after r) := by
  refine ⟨?_, ?_, ?_⟩
  · simp [maybe_changed_after]
  · intro rt v rt1 t1 id h
    rcases intern_cases h with ⟨hk, rfl⟩ | ⟨hk, hc, hv, rfl, rfl⟩
    · exact ⟨rfl, rfl⟩
    · exact ⟨rfl, rfl⟩
  · intro ops rt hno
    unfold InternedIngredient.maybe_changed_after
    rw [runOps_no_reset ops t rt hno]

/-- C6 witness: on a table whose last reset was at revision `3`,
`maybe_changed_after` answers `true` for revision `2`, an `intern` leaves the
answer unchanged, and a reset-free run leaves it unchanged. -/
theorem C6_freshness_contract_witness :
    (({ new Nat 0 "t" with reset_at := 3 } : InternedIngredient Nat).maybe_changed_after 2 = true) ∧
    ((internAlloc { new Nat 0 "t" with reset_at := 3 } 9).maybe_changed_after 2 =
      ({ new Nat 0 "t" with reset_at := 3 } : InternedIngredient Nat).maybe_changed_after 2) ∧
    ((runOps { new Nat 0 "t" with reset_at := 3 } ⟨[]⟩
        [Op.intern 9, Op.lookup (Id.from_u32 0)]).1.maybe_changed_after 2 =
      ({ new Nat 0 "t" with reset_at := 3 } : InternedIngredient Nat).maybe_changed_after 2) :=
  ⟨(C6_freshness_contract { new Nat 0 "t" with reset_at := 3 } 2).1.mpr (by decide),
    ((C6_freshness_contract { new Nat 0 "t" with reset_at := 3 } 2).2.1 ⟨[]⟩ 9
      ⟨[tableRead { new Nat 0 "t" with reset_at := 3 }]⟩
      (internAlloc { new Nat 0 "t" with reset_at := 3 } 9) (Id.from_u32 0)
      (by decide)).2,
    (C6_freshness_contract { new Nat 0 "t" with reset_at := 3 } 2).2.2
      [Op.intern 9, Op.lookup (Id.from_u32 0)] ⟨[]⟩
      (by intro r0 hmem; simp at hmem)⟩

/-- C8: Dependency registration — every `intern` and every `data` call, on
every path (hit, miss, or fatal), hands back the runtime with exactly one
tracked read appended, carrying the table's dependency index, maximum
durability and the current `reset_at`; the read is recorded on the runtime the
operation returns, hence before any caller can observe the result. -/
theorem C8_dependency_registration {V : Type} [DecidableEq V]
    (t : InternedIngredient V) (rt : Runtime) (v : V) (id : Id) :
    (t.intern rt v).1 = ⟨rt.reads ++ [tableRead t]⟩ ∧
    (t.data rt id).1 = ⟨rt.reads ++ [tableRead t]⟩ ∧
    tableRead t = ⟨DependencyIndex.for_table t.ingredient_index,
      Durability.MAX, t.reset_at⟩ :=
  ⟨intern_fst t rt v, data_fst t rt id, rfl⟩

/-- C9: Unsupported lifecycle operations — `reset_for_new_revision`,
`mark_validated_output`, `remove_stale_output` and `salsa_struct_deleted` fail
fatally (embedded as `none`) on every input; none of them ever silently
succeeds. -/
theorem C9_unsupported_lifecycle {V : Type} (t : InternedIngredient V)
    (executor : Nat) (key : Option Id) (id : Id) :
    t.reset_for_new_revision = none ∧
    t.mark_validated_output executor key = none ∧
    t.remove_stale_output executor key = none ∧
    t.salsa_struct_deleted id = none :=
  ⟨rfl, rfl, rfl, rfl⟩

/-- C10: `IdentityInterner` — `intern` returns `as_id x` and `data` returns
`from_id id`; under the `AsId` trait contract (the two conversions are
mutually inverse) the operations are pure mutual inverses; neither keeps any
state nor reports a tracked read (the runtime is returned untouched). -/
theorem C10_identity_interner {V : Type} (s : IdentityInterner V)
    (rt : Runtime) (x : V) (id : Id)
    (h1 : ∀ y, s.from_id (s.as_id y) = y)
    (h2 : ∀ i, s.as_id (s.from_id i) = i) :
    (s.intern rt x).2 = s.as_id x ∧
    (s.data rt id).2 = s.from_id id ∧
    (s.data rt (s.intern rt x).2).2 = x ∧
    (s.intern rt (s.data rt id).2).2 = id ∧
    (s.intern rt x).1 = rt ∧
    (s.data rt id).1 = rt :=
  ⟨rfl, rfl, h1 x, h2 id, rfl, rfl⟩

/-- C10 witness: the identity `AsId` instance on ids themselves. -/
theorem C10_identity_interner_witness :
    ((IdentityInterner.mk (fun n : Nat => Id.from_u32 n) (fun i => i.value)).data ⟨[]⟩
      ((IdentityInterner.mk (fun n : Nat => Id.from_u32 n) (fun i => i.value)).intern ⟨[]⟩ 5).2).2 = 5 ∧
    ((IdentityInterner.mk (fun n : Nat => Id.from_u32 n) (fun i => i.value)).intern ⟨[]⟩ 5).1 = ⟨[]⟩ :=
  ⟨(C10_identity_interner
      (IdentityInterner.mk (fun n : Nat => Id.from_u32 n) (fun i => i.value))
      ⟨[]⟩ 5 (Id.from_u32 0) (fun _ => rfl) (fun _ => rfl)).2.2.1,
    (C10_identity_interner
      (IdentityInterner.mk (fun n : Nat => Id.from_u32 n) (fun i => i.value))
      ⟨[]⟩ 5 (Id.from_u32 0) (fun _ => rfl) (fun _ => rfl)).2.2.2.2.1⟩

/-- C2: Injectivity — within one reset epoch, interning two values that are
not equal yields distinct ids (stated for the two successive interns, the
epoch not being ended by a reset in between); moreover in a well-formed table
no two distinct values share an id through the forward index and no single
value holds two ids. -/
theorem C2_injectivity {V : Type} [DecidableEq V]
    {t t1 t2 : InternedIngredient V} {rta rta1 rtb rtb1 : Runtime}
    {v1 v2 : V} {id1 id2 : Id}
    (hwf : TableWf t)
    (h1 : t.intern rta v1 = (rta1, some (t1, id1)))
    (h2 : t1.intern rtb v2 = (rtb1, some (t2, id2)))
    (hne : v1 ≠ v2) :
    id1 ≠ id2 ∧
    (∀ w1 w2 j, alookup t.key_map w1 = some j →
      alookup t.key_map w2 = some j → w1 = w2) ∧
    (∀ w j1 j2, alookup t.key_map w = some j1 →
      alookup t.key_map w = some j2 → j1 = j2) := by
  refine ⟨?_, ?_, ?_⟩
  · rcases intern_cases h1 with ⟨hk1, rfl⟩ | ⟨hk1, hc1, hv1, rfl, rfl⟩
    · rcases intern_cases h2 with ⟨hk2, rfl⟩ | ⟨hk2, hc2, hv2, rfl, rfl⟩
      · intro heq
        apply hne
        have e1 := hwf.kv _ _ hk1
        have e2 := hwf.kv _ _ hk2
        rw [← heq] at e2
        rw [e1] at e2
        exact Option.some.inj e2
      · intro heq
        have e1 := hwf.kv _ _ hk1
        have hf := hwf.fresh _ _ e1
        rw [heq] at hf
        simp [Id.from_u32] at hf
    · rcases intern_cases h2 with ⟨hk2, rfl⟩ | ⟨hk2, hc2, hv2, rfl, rfl⟩
      · rw [internAlloc, alookup_cons, if_neg hne] at hk2
        have e2 := hwf.kv _ _ hk2
        have hf := hwf.fresh _ _ e2
        intro heq
        rw [← heq] at hf
        simp [Id.from_u32] at hf
      · intro heq
        simp [Id.from_u32, internAlloc, Id.mk.injEq] at heq
  · intro w1 w2 j hj1 hj2
    have e1 := hwf.kv _ _ hj1
    have e2 := hwf.kv _ _ hj2
    rw [e1] at e2
    exact Option.some.inj e2
  · intro w j1 j2 hj1 hj2
    rw [hj1] at hj2
    exact Option.some.inj hj2

/-- C2 witness: interning `1` then `2` into a fresh table yields the distinct
ids `0` and `1`. -/
theorem C2_injectivity_witness : Id.from_u32 0 ≠ Id.from_u32 1 :=
  (C2_injectivity (wf_new Nat 0 "t")
    ((by decide) :
      (new Nat 0 "t").intern ⟨[]⟩ 1 =
        (⟨[tableRead (new Nat 0 "t")]⟩,
          some (internAlloc (new Nat 0 "t") 1, Id.from_u32 0)))
    ((by decide) :
      (internAlloc (new Nat 0 "t") 1).intern ⟨[]⟩ 2 =
        (⟨[tableRead (internAlloc (new Nat 0 "t") 1)]⟩,
          some (internAlloc (internAlloc (new Nat 0 "t") 1) 2, Id.from_u32 1)))
    (by decide)).1

/-- C5: Post-reset isolation — after a successful `reset`, `data` fails
fatally for every id (the backward index is empty, so in particular every id
minted before the reset is unknown), and re-interning a value that had an id
before the reset allocates the fresh counter value, which is distinct from the
stale id. -/
theorem C5_post_reset_isolation {V : Type} [DecidableEq V]
    {t t' : InternedIngredient V} {r : Nat} {v : V} {id0 : Id}
    (hwf : TableWf t) (hres : t.reset r = some t')
    (hold : alookup t.key_map v = some id0)
    (hcnt : t.counter < U32_SIZE) :
    (∀ id rt, (t'.data rt id).2 = none) ∧
    (∀ rt, t'.intern rt v =
        (⟨rt.reads ++ [tableRead t']⟩,
          some (internAlloc t' v, Id.from_u32 t.counter)) ∧
      Id.from_u32 t.counter ≠ id0) := by
  obtain ⟨hlt, rfl⟩ := reset_some hres
  constructor
  · intro id rt
    simp [data, alookup]
  · intro rt
    constructor
    · exact intern_miss rt (by simp [alookup]) hcnt (by simp [alookup])
    · intro heq
      have e0 := hwf.kv _ _ hold
      have hf := hwf.fresh _ _ e0
      rw [← heq] at hf
      simp [Id.from_u32] at hf

/-- C5 witness: intern `5` (id `0`), reset to revision `1`; then looking up id
`0` fails and the stale id differs from the id a re-intern would allocate. -/
theorem C5_post_reset_isolation_witness :
    (({ internAlloc (new Nat 0 "t") 5 with
          reset_at := 1, key_map := [], value_map := [] } :
        InternedIngredient Nat).data ⟨[]⟩ (Id.from_u32 0)).2 = none ∧
    Id.from_u32 1 ≠ Id.from_u32 0 :=
  ⟨(C5_post_reset_isolation
      (intern_wf (wf_new Nat 0 "t")
        ((by decide) :
          (new Nat 0 "t").intern ⟨[]⟩ 5 =
            (⟨[tableRead (new Nat 0 "t")]⟩,
              some (internAlloc (new Nat 0 "t") 5, Id.from_u32 0))))
      ((by decide) :
        (internAlloc (new Nat 0 "t") 5).reset 1 =
          some { internAlloc (new Nat 0 "t") 5 with
                   reset_at := 1, key_map := [], value_map := [] })
      ((by decide) :
        alookup (internAlloc (new Nat 0 "t") 5).key_map 5 = some (Id.from_u32 0))
      (by decide)).1 (Id.from_u32 0) ⟨[]⟩,
    ((C5_post_reset_isolation
      (intern_wf (wf_new Nat 0 "t")
        ((by decide) :
          (new Nat 0 "t").intern ⟨[]⟩ 5 =
            (⟨[tableRead (new Nat 0 "t")]⟩,
              some (internAlloc (new Nat 0 "t") 5, Id.from_u32 0))))
      ((by decide) :
        (internAlloc (new Nat 0 "t") 5).reset 1 =
          some { internAlloc (new Nat 0 "t") 5 with
                   reset_at := 1, key_map := [], value_map := [] })
      ((by decide) :
        alookup (internAlloc (new Nat 0 "t") 5).key_map 5 = some (Id.from_u32 0))
      (by decide)).2 ⟨[]⟩).2⟩

/-- C7: Id allocation — a successful intern on a miss returns exactly the
current counter value as id and advances the counter by one; `reset` never
touches the counter (ids keep advancing across epochs); a miss with the
32-bit id space exhausted is fatal, not a wrap-around; and over any run of
operations the allocated ids are strictly increasing in allocation order, so
no id is ever handed out twice while the table is live. -/
theorem C7_id_allocation {V : Type} [DecidableEq V] :
    (∀ (t t1 : InternedIngredient V) (rt rt1 : Runtime) (v : V) (id : Id),
      alookup t.key_map v = none →
      t.intern rt v = (rt1, some (t1, id)) →
      id = Id.from_u32 t.counter ∧ t1.counter = t.counter + 1) ∧
    (∀ (t t' : InternedIngredient V) (r : Nat),
      t.reset r = some t' → t'.counter = t.counter) ∧
    (∀ (t : InternedIngredient V) (rt : Runtime) (v : V),
      alookup t.key_map v = none → ¬ t.counter < U32_SIZE →
      (t.intern rt v).2 = none) ∧
    (∀ (ops : List (Op V)) (t : InternedIngredient V) (rt : Runtime),
      List.Pairwise (fun a b : Id => a.value < b.value) (runOps t rt ops).2.2) := by
  refine ⟨?_, ?_, ?_, ?_⟩
  · intro t t1 rt rt1 v id hmiss h
    rcases intern_cases h with ⟨hk, rfl⟩ | ⟨hk, hc, hv, rfl, rfl⟩
    · rw [hmiss] at hk
      cases hk
    · exact ⟨rfl, rfl⟩
  · intro t t' r h
    obtain ⟨-, rfl⟩ := reset_some h
    rfl
  · intro t rt v hmiss hc
    rw [intern_overflow rt hmiss hc]
  · exact runOps_pairwise

/-- C7 witness: a concrete miss allocates id `0` and bumps the counter; a
reset keeps the counter; a full table fails fatally on a miss; and a concrete
run allocates strictly increasing ids. -/
theorem C7_id_allocation_witness :
    (Id.from_u32 0 = Id.from_u32 (new Nat 0 "t").counter ∧
      (internAlloc (new Nat 0 "t") 4).counter = (new Nat 0 "t").counter + 1) ∧
    ({ internAlloc (new Nat 0 "t") 4 with
        reset_at := 1, key_map := [], value_map := [] } :
      InternedIngredient Nat).counter = (internAlloc (new Nat 0 "t") 4).counter ∧
    (({ ingredient_index := 0, key_map := [], value_map := [],
        counter := U32_SIZE, reset_at := 0, debug_name := "t" } :
        InternedIngredient Nat).intern ⟨[]⟩ 4).2 = none ∧
    List.Pairwise (fun a b : Id => a.value < b.value)
      (runOps (new Nat 0 "t") ⟨[]⟩ [Op.intern 4, Op.intern 5, Op.intern 4]).2.2 :=
  ⟨(C7_id_allocation (V := Nat)).1 (new Nat 0 "t") (internAlloc (new Nat 0 "t") 4)
      ⟨[]⟩ ⟨[tableRead (new Nat 0 "t")]⟩ 4 (Id.from_u32 0)
      (by decide) (by decide),
    (C7_id_allocation (V := Nat)).2.1 (internAlloc (new Nat 0 "t") 4)
      { internAlloc (new Nat 0 "t") 4 with
          reset_at := 1, key_map := [], value_map := [] } 1 (by decide),
    (C7_id_allocation (V := Nat)).2.2.1
      { ingredient_index := 0, key_map := [], value_map := [],
        counter := U32_SIZE, reset_at := 0, debug_name := "t" }
      ⟨[]⟩ 4 (by decide) (by decide),
    (C7_id_allocation (V := Nat)).2.2.2
      [Op.intern 4, Op.intern 5, Op.intern 4] (new Nat 0 "t") ⟨[]⟩⟩

end Salsa
